import Mathlib

/-
Shallow embedding of the request-dispatch engine in `src/load_balancer.py`.

Modelling choices:
- Server ids are list indices: `servers : List Server` with index i standing
  for the dict key i (the Python dict is built as `{i: ... for i in range(n)}`
  and iterated in insertion order, i.e. ascending ids, so `min(...)` over the
  dict keys picks the first index realising the minimum).
- Client quotas: `clients : List Int`, index = client id, value = remaining
  quota (`clients[client_id]` in the source); ids outside `0..len-1` fail the
  `client_id not in clients` membership test.
- `queue.PriorityQueue` holds tuples `(priority, (client_id, request_id))`
  compared lexicographically; `get` returns the least tuple.  We model the
  heap as a multiset (a list) together with `extractMin`, which removes the
  first occurrence of the lexicographic minimum, and `put` as list append.
- `pending_requests` stores the very dict objects appended to `all_requests`,
  so we model it as a list of indices into the ledger `allRequests`.
- One iteration of the `process_requests` while-loop (with its sleeps erased)
  is the pure function `process_requests_cycle`.
- Request status: `false` = "pending", `true` = "processed".
-/

namespace LoadBalancer

structure Server where
  handled_requests : Nat
  active : Bool
deriving DecidableEq, Inhabited

structure QItem where
  priority : Int
  client_id : Int
  request_id : Int
deriving DecidableEq, Inhabited

structure RequestEntry where
  client_id : Int
  request_id : Int
  priority : Int
  status : Bool
deriving DecidableEq, Inhabited

structure LBState where
  servers : List Server
  clients : List Int
  queue : List QItem
  pending : List Nat
  allRequests : List RequestEntry
deriving DecidableEq, Inhabited

inductive SubmitResult where
  | invalidClient
  | quotaExceeded
  | invalidPriority
  | duplicateRequest
  | accepted
deriving DecidableEq

/-- The module-level state right after import: every container empty. -/
def initState : LBState := ⟨[], [], [], [], []⟩

/-- `client_id in clients` for the dict `{0: q, 1: q, ...}`. -/
def clientExists (cs : List Int) (cid : Int) : Bool :=
  decide (0 ≤ cid) && decide (cid < (cs.length : Int))

/-- `clients[client_id]` (only consulted when the membership test passed). -/
def getQuota (cs : List Int) (cid : Int) : Int := cs.getD cid.toNat 0

/-- `clients[client_id] -= 1`. -/
def decQuota (cs : List Int) (cid : Int) : List Int :=
  cs.set cid.toNat (cs.getD cid.toNat 0 - 1)

/-- The duplicate scan over `request_queue.queue`:
`(client_id, request_id) in [(r[1][0], r[1][1]) for r in request_queue.queue]`. -/
def hasKey (q : List QItem) (cid rid : Int) : Bool :=
  q.any fun it => it.client_id == cid && it.request_id == rid

/-- `LoadBalancer.configure`: rebuilds `servers` and `clients`; the queue,
`pending_requests` and `all_requests` are NOT touched by the source. -/
def configure (s : LBState) (num_servers num_clients : Nat)
    (requests_per_client : Int) : LBState :=
  { s with
      servers := List.replicate num_servers ⟨0, true⟩,
      clients := List.replicate num_clients requests_per_client }

/-- `LoadBalancer.add_request`, checks in source order: membership, quota,
priority, duplicate; on success pushes to the queue, decrements the quota and
appends one entry to `pending_requests`/`all_requests`. -/
def add_request (s : LBState) (cid rid p : Int) : SubmitResult × LBState :=
  if clientExists s.clients cid = true then
    if getQuota s.clients cid ≤ 0 then (.quotaExceeded, s)
    else if p ≤ 0 then (.invalidPriority, s)
    else if hasKey s.queue cid rid = true then (.duplicateRequest, s)
    else (.accepted,
      { s with
          queue := s.queue ++ [⟨p, cid, rid⟩],
          clients := decQuota s.clients cid,
          pending := s.pending ++ [s.allRequests.length],
          allRequests := s.allRequests ++ [⟨cid, rid, p, false⟩] })
  else (.invalidClient, s)

/-- Strict lexicographic comparison of the Python tuples
`(priority, (client_id, request_id))`. -/
def qLt (a b : QItem) : Bool :=
  decide (a.priority < b.priority) ||
    (decide (a.priority = b.priority) &&
      (decide (a.client_id < b.client_id) ||
        (decide (a.client_id = b.client_id) &&
          decide (a.request_id < b.request_id))))

/-- `request_queue.get()`: removes and returns the least tuple of the heap
(first occurrence of the minimum), together with the remaining multiset. -/
def extractMin : List QItem → Option (QItem × List QItem)
  | [] => none
  | x :: xs =>
    match extractMin xs with
    | none => some (x, [])
    | some (m, rest) => if qLt m x then some (m, x :: rest) else some (x, xs)

/-- `min(iterable, key=...)` over an ascending index list: keeps the current
best and replaces it only on a strictly smaller key, so the first index
realising the minimum wins. -/
def pickMin (ss : List Server) : List Nat → Option Nat
  | [] => none
  | i :: is =>
    match pickMin ss is with
    | none => some i
    | some j =>
      if (ss.getD j default).handled_requests < (ss.getD i default).handled_requests
      then some j else some i

/-- The ids of the active servers, in dict iteration (= ascending id) order:
`{sid: data for sid, data in servers.items() if data["active"]}`. -/
def activeIdxs (ss : List Server) : List Nat :=
  (List.range ss.length).filter fun i => (ss.getD i default).active

/-- `min(active_servers, key=lambda s: active_servers[s]["handled_requests"])`,
or `none` when `active_servers` is empty. -/
def available_server (ss : List Server) : Option Nat :=
  pickMin ss (activeIdxs ss)

/-- The `for req in all_requests: if req["request_id"] == request_id: ...
break` loop: flips the status of the FIRST ledger entry whose `request_id`
matches, ignoring `client_id`. -/
def setProcessedFirst : List RequestEntry → Int → List RequestEntry
  | [], _ => []
  | e :: es, rid =>
    if e.request_id == rid then { e with status := true } :: es
    else e :: setProcessedFirst es rid

/-- One iteration of `LoadBalancer.process_requests` (sleeps erased):
pop the least item if any; if no server is active, push the popped tuple back
unchanged; otherwise charge the least-loaded active server, flip the first
ledger entry matching the popped `request_id`, and drop every
`pending_requests` entry whose `request_id` matches. -/
def process_requests_cycle (s : LBState) : LBState :=
  match extractMin s.queue with
  | none => s
  | some (item, rest) =>
    match available_server s.servers with
    | none => { s with queue := rest ++ [item] }
    | some w =>
      let srv := s.servers.getD w default
      let ledger := setProcessedFirst s.allRequests item.request_id
      { s with
          queue := rest,
          servers := s.servers.set w { srv with handled_requests := srv.handled_requests + 1 },
          allRequests := ledger,
          pending := s.pending.filter
            fun idx => !((ledger.getD idx default).request_id == item.request_id) }

/-- The `/server_up` and `/server_down` endpoints: flip the `active` flag of an
existing server, reject unknown ids. -/
def set_worker_active (s : LBState) (wid : Nat) (b : Bool) : LBState :=
  if wid < s.servers.length then
    { s with servers := s.servers.set wid { s.servers.getD wid default with active := b } }
  else s

/-- One atomic operation of the scheduler. -/
inductive Step : LBState → LBState → Prop where
  | submit (s : LBState) (cid rid p : Int) : Step s (add_request s cid rid p).2
  | dispatch (s : LBState) : Step s (process_requests_cycle s)
  | config (s : LBState) (nw nc : Nat) (q : Int) : Step s (configure s nw nc q)
  | setActive (s : LBState) (wid : Nat) (b : Bool) : Step s (set_worker_active s wid b)

/-- States reachable from process start by any interleaving of operations. -/
inductive Reachable : LBState → Prop where
  | init : Reachable initState
  | step {s t : LBState} : Reachable s → Step s t → Reachable t

/-- The `(clientId, requestId)` keys currently in the priority queue. -/
def queueKeys (q : List QItem) : List (Int × Int) :=
  q.map fun it => (it.client_id, it.request_id)

/-- The `(clientId, requestId)` keys of the ledger entries still Pending. -/
def pendingLedgerKeys (l : List RequestEntry) : List (Int × Int) :=
  (l.filter fun e => e.status == false).map fun e => (e.client_id, e.request_id)

/-- Folding a batch of `Submit(cid, rid, p)` calls for one client. -/
def runSubmits (s : LBState) (cid : Int) : List (Int × Int) → LBState
  | [] => s
  | (rid, p) :: rest => runSubmits (add_request s cid rid p).2 cid rest

/-- Every submission in the batch is accepted. -/
def allAccepted (s : LBState) (cid : Int) : List (Int × Int) → Bool
  | [] => true
  | (rid, p) :: rest =>
    decide ((add_request s cid rid p).1 = SubmitResult.accepted) &&
      allAccepted (add_request s cid rid p).2 cid rest

/-! ### Branch equations of `add_request` -/

lemma add_request_invalidClient {s : LBState} {cid rid p : Int}
    (h : clientExists s.clients cid = false) :
    add_request s cid rid p = (SubmitResult.invalidClient, s) := by
  simp [add_request, h]

lemma add_request_quotaExceeded {s : LBState} {cid rid p : Int}
    (h1 : clientExists s.clients cid = true) (h2 : getQuota s.clients cid ≤ 0) :
    add_request s cid rid p = (SubmitResult.quotaExceeded, s) := by
  simp [add_request, h1, h2]

lemma add_request_invalidPriority {s : LBState} {cid rid p : Int}
    (h1 : clientExists s.clients cid = true) (h2 : 0 < getQuota s.clients cid)
    (h3 : p ≤ 0) :
    add_request s cid rid p = (SubmitResult.invalidPriority, s) := by
  simp [add_request, h1, h3, not_le.mpr h2]

lemma add_request_duplicate {s : LBState} {cid rid p : Int}
    (h1 : clientExists s.clients cid = true) (h2 : 0 < getQuota s.clients cid)
    (h3 : 0 < p) (h4 : hasKey s.queue cid rid = true) :
    add_request s cid rid p = (SubmitResult.duplicateRequest, s) := by
  simp [add_request, h1, h4, not_le.mpr h2, not_le.mpr h3]

lemma add_request_accept {s : LBState} {cid rid p : Int}
    (h1 : clientExists s.clients cid = true) (h2 : 0 < getQuota s.clients cid)
    (h3 : 0 < p) (h4 : hasKey s.queue cid rid = false) :
    add_request s cid rid p = (SubmitResult.accepted,
      { s with
          queue := s.queue ++ [⟨p, cid, rid⟩],
          clients := decQuota s.clients cid,
          pending := s.pending ++ [s.allRequests.length],
          allRequests := s.allRequests ++ [⟨cid, rid, p, false⟩] }) := by
  simp [add_request, h1, h4, not_le.mpr h2, not_le.mpr h3]

/-! ### C1: effect of Configure -/

/-- C1 (amended): `configure` rebuilds the worker registry (all ids
`0..numWorkers-1` active with zero load) and the quota tracker (all ids
`0..numClients-1` at `requestsPerClient`), but it leaves the Pending Queue,
the pending list and the Ledger exactly as they were: prior queue/ledger
state is NOT discarded. -/
theorem C1_configure_effects (s : LBState) (nw nc : Nat) (q : Int) :
    (configure s nw nc q).servers.length = nw ∧
    (∀ i, i < nw → (configure s nw nc q).servers.getD i default = ⟨0, true⟩) ∧
    (configure s nw nc q).clients.length = nc ∧
    (∀ i, i < nc → (configure s nw nc q).clients.getD i 0 = q) ∧
    (configure s nw nc q).queue = s.queue ∧
    (configure s nw nc q).pending = s.pending ∧
    (configure s nw nc q).allRequests = s.allRequests := by
  refine ⟨by simp [configure], fun i hi => ?_, by simp [configure],
    fun i hi => ?_, rfl, rfl, rfl⟩
  · rw [configure, List.getD_eq_getElem _ _ (by simpa using hi)]
    simp
  · rw [configure, List.getD_eq_getElem _ _ (by simpa using hi)]
    simp

/-- Witness for C1: concrete instantiation. -/
theorem C1_configure_effects_witness :
    (configure initState 2 3 5).servers.getD 1 default = ⟨0, true⟩ ∧
    (configure initState 2 3 5).clients.getD 2 0 = 5 ∧
    (configure initState 2 3 5).queue = initState.queue :=
  ⟨(C1_configure_effects initState 2 3 5).2.1 1 (by decide),
   (C1_configure_effects initState 2 3 5).2.2.2.1 2 (by decide),
   (C1_configure_effects initState 2 3 5).2.2.2.2.1⟩

/-- Counterexample to C1 as stated: apply `configure` to a state holding one
queued item and one ledger entry — both survive, so the queue and ledger are
not emptied. -/
theorem C1_counterexample :
    (configure ((add_request (configure initState 1 1 1) 0 0 1).2) 1 1 1).queue ≠ [] ∧
    (configure ((add_request (configure initState 1 1 1) 0 0 1).2) 1 1 1).allRequests ≠ [] := by
  decide

/-! ### C8: Submit validation order and rejection purity -/

/-- C8: the four Submit validations run in source order — client membership,
then quota, then priority, then pending-duplicate — the first failing check
fixes the structured rejection, and every rejected Submit returns the state
completely unchanged. -/
theorem C8_submit_validation_order (s : LBState) (cid rid p : Int) :
    (clientExists s.clients cid = false →
      add_request s cid rid p = (SubmitResult.invalidClient, s)) ∧
    (clientExists s.clients cid = true → getQuota s.clients cid ≤ 0 →
      add_request s cid rid p = (SubmitResult.quotaExceeded, s)) ∧
    (clientExists s.clients cid = true → 0 < getQuota s.clients cid → p ≤ 0 →
      add_request s cid rid p = (SubmitResult.invalidPriority, s)) ∧
    (clientExists s.clients cid = true → 0 < getQuota s.clients cid → 0 < p →
      hasKey s.queue cid rid = true →
      add_request s cid rid p = (SubmitResult.duplicateRequest, s)) :=
  ⟨fun h => add_request_invalidClient h,
   fun h1 h2 => add_request_quotaExceeded h1 h2,
   fun h1 h2 h3 => add_request_invalidPriority h1 h2 h3,
   fun h1 h2 h3 h4 => add_request_duplicate h1 h2 h3 h4⟩

/-- Witness for C8: one concrete rejection per validation, each leaving the
state untouched. -/
theorem C8_submit_validation_order_witness :
    add_request (configure initState 1 1 1) 5 0 1
      = (SubmitResult.invalidClient, configure initState 1 1 1) ∧
    add_request (configure initState 1 1 0) 0 0 1
      = (SubmitResult.quotaExceeded, configure initState 1 1 0) ∧
    add_request (configure initState 1 1 1) 0 0 0
      = (SubmitResult.invalidPriority, configure initState 1 1 1) ∧
    add_request ((add_request (configure initState 1 1 2) 0 0 1).2) 0 0 1
      = (SubmitResult.duplicateRequest, (add_request (configure initState 1 1 2) 0 0 1).2) :=
  ⟨(C8_submit_validation_order _ 5 0 1).1 (by decide),
   (C8_submit_validation_order _ 0 0 1).2.1 (by decide) (by decide),
   (C8_submit_validation_order _ 0 0 0).2.2.1 (by decide) (by decide) (by decide),
   (C8_submit_validation_order _ 0 0 1).2.2.2 (by decide) (by decide) (by decide) (by decide)⟩

/-! ### C10: frame conditions -/

/-- C10: a Submit call never modifies the worker registry, and a dispatch
cycle never modifies the client quota tracker. -/
theorem C10_frame_conditions (s : LBState) (cid rid p : Int) :
    (add_request s cid rid p).2.servers = s.servers ∧
    (process_requests_cycle s).clients = s.clients := by
  constructor
  · simp only [add_request]
    repeat' split
    all_goals rfl
  · simp only [process_requests_cycle]
    repeat' split
    all_goals rfl

/-! ### C2 counterexample: ledger matching ignores the clientId -/

/-- Counterexample to C2 as stated.  Two clients submit the same requestId 7;
the dispatch cycle pops the item of client 1 (priority 1) but flips the ledger
entry of client 0 (the first one matching requestId 7), leaves the entry of
client 1 Pending, and also removes the entry of client 0 from the pending
list. -/
theorem C2_counterexample :
    extractMin ((add_request (add_request (configure initState 1 2 1) 0 7 2).2 1 7 1).2).queue
      = some (⟨1, 1, 7⟩, [⟨2, 0, 7⟩]) ∧
    ((process_requests_cycle
        (add_request (add_request (configure initState 1 2 1) 0 7 2).2 1 7 1).2).allRequests.getD 0 default)
      = ⟨0, 7, 2, true⟩ ∧
    ((process_requests_cycle
        (add_request (add_request (configure initState 1 2 1) 0 7 2).2 1 7 1).2).allRequests.getD 1 default)
      = ⟨1, 7, 1, false⟩ ∧
    (process_requests_cycle
        (add_request (add_request (configure initState 1 2 1) 0 7 2).2 1 7 1).2).pending = [] := by
  decide

/-! ### C5 counterexample: equal-priority ties are not FIFO -/

/-- Counterexample to C5 as stated.  Client 1 submits requestId 10 first, then
client 0 submits requestId 20, both with priority 5.  After one dispatch
cycle the later-pushed item (0,20) is Processed while the first-pushed item
(1,10) is still Pending: the heap breaks the priority tie by the
`(clientId, requestId)` tuple, not by insertion order. -/
theorem C5_counterexample :
    ((process_requests_cycle
        (add_request (add_request (configure initState 1 2 5) 1 10 5).2 0 20 5).2).allRequests.getD 0 default)
      = ⟨1, 10, 5, false⟩ ∧
    ((process_requests_cycle
        (add_request (add_request (configure initState 1 2 5) 1 10 5).2 0 20 5).2).allRequests.getD 1 default)
      = ⟨0, 20, 5, true⟩ := by
  decide

/-! ### Order facts about the heap comparison -/

lemma qLt_spec (a b : QItem) :
    qLt a b = true ↔
      a.priority < b.priority ∨ a.priority = b.priority ∧
        (a.client_id < b.client_id ∨ a.client_id = b.client_id ∧
          a.request_id < b.request_id) := by
  simp [qLt]

lemma qLt_irrefl (a : QItem) : qLt a a = false := by
  simp [qLt]

lemma qLt_asymm {a b : QItem} (h : qLt a b = true) : qLt b a = false := by
  cases hq : qLt b a with
  | false => rfl
  | true => exfalso; rw [qLt_spec] at h hq; omega

lemma qLt_false_trans {a b c : QItem} (h1 : qLt a b = false) (h2 : qLt b c = false) :
    qLt a c = false := by
  cases hq : qLt a c with
  | false => rfl
  | true =>
    exfalso
    have h1' : ¬ (qLt a b = true) := by simp [h1]
    have h2' : ¬ (qLt b c = true) := by simp [h2]
    rw [qLt_spec] at hq h1' h2'
    omega

/-! ### `extractMin` returns the least element of the multiset -/

lemma extractMin_eq_nil {l : List QItem} (h : extractMin l = none) : l = [] := by
  cases l with
  | nil => rfl
  | cons x xs =>
    exfalso
    rw [extractMin] at h
    split at h
    · simp at h
    · split at h <;> simp at h

lemma extractMin_perm :
    ∀ {l : List QItem} {m : QItem} {rest : List QItem},
      extractMin l = some (m, rest) → l.Perm (m :: rest) := by
  intro l
  induction l with
  | nil => intro m rest h; simp [extractMin] at h
  | cons x xs ih =>
    intro m rest h
    rw [extractMin] at h
    split at h
    · rename_i hx
      simp only [Option.some.injEq, Prod.mk.injEq] at h
      obtain ⟨rfl, rfl⟩ := h
      rw [extractMin_eq_nil hx]
    · rename_i m' rest' hx
      split at h
      · simp only [Option.some.injEq, Prod.mk.injEq] at h
        obtain ⟨rfl, rfl⟩ := h
        exact ((ih hx).cons x).trans (List.Perm.swap _ _ _)
      · simp only [Option.some.injEq, Prod.mk.injEq] at h
        obtain ⟨rfl, rfl⟩ := h
        exact List.Perm.refl _

lemma extractMin_mem {l : List QItem} {m : QItem} {rest : List QItem}
    (h : extractMin l = some (m, rest)) : m ∈ l :=
  (extractMin_perm h).mem_iff.mpr (List.mem_cons_self _ _)

lemma extractMin_min :
    ∀ {l : List QItem} {m : QItem} {rest : List QItem},
      extractMin l = some (m, rest) → ∀ y ∈ l, qLt y m = false := by
  intro l
  induction l with
  | nil => intro m rest h; simp [extractMin] at h
  | cons x xs ih =>
    intro m rest h y hy
    rw [extractMin] at h
    split at h
    · rename_i hx
      simp only [Option.some.injEq, Prod.mk.injEq] at h
      obtain ⟨rfl, rfl⟩ := h
      rw [extractMin_eq_nil hx] at hy
      rcases List.mem_singleton.mp hy with rfl
      exact qLt_irrefl _
    · rename_i m' rest' hx
      split at h
      · rename_i hq
        simp only [Option.some.injEq, Prod.mk.injEq] at h
        obtain ⟨rfl, rfl⟩ := h
        rcases List.mem_cons.mp hy with rfl | hy'
        · exact qLt_asymm hq
        · exact ih hx y hy'
      · rename_i hq
        simp only [Option.some.injEq, Prod.mk.injEq] at h
        obtain ⟨rfl, rfl⟩ := h
        have hq' : qLt m' x = false := by
          cases hb : qLt m' x with
          | false => rfl
          | true => exact absurd hb hq
        rcases List.mem_cons.mp hy with rfl | hy'
        · exact qLt_irrefl _
        · exact qLt_false_trans (ih hx y hy') hq'

/-! ### C5: tie-breaking among equal priorities -/

/-- C5 (amended): the popped item is a least element of the queue under the
lexicographic order on `(priority, clientId, requestId)`.  Among pending items
of equal priority the one with the smallest `(clientId, requestId)` pair is
popped first — insertion order plays no role. -/
theorem C5_tie_break_by_key {q : List QItem} {m : QItem} {rest : List QItem}
    (h : extractMin q = some (m, rest)) :
    m ∈ q ∧ (∀ y ∈ q, qLt y m = false) ∧
    (∀ y ∈ q, y.priority = m.priority →
      m.client_id < y.client_id ∨ m.client_id = y.client_id ∧
        m.request_id ≤ y.request_id) := by
  refine ⟨extractMin_mem h, extractMin_min h, fun y hy hp => ?_⟩
  have hf : ¬ (qLt y m = true) := by simp [extractMin_min h y hy]
  rw [qLt_spec] at hf
  omega

/-- Witness for C5: in the queue `[(5,1,10), (5,0,20)]` (insertion order) the
minimum is the later-pushed `(5,0,20)`. -/
theorem C5_tie_break_by_key_witness :
    (⟨5, 0, 20⟩ : QItem) ∈ [(⟨5, 1, 10⟩ : QItem), ⟨5, 0, 20⟩] ∧
    (∀ y ∈ [(⟨5, 1, 10⟩ : QItem), ⟨5, 0, 20⟩], qLt y ⟨5, 0, 20⟩ = false) ∧
    (∀ y ∈ [(⟨5, 1, 10⟩ : QItem), ⟨5, 0, 20⟩], y.priority = (5 : Int) →
      (0 : Int) < y.client_id ∨ (0 : Int) = y.client_id ∧
        (20 : Int) ≤ y.request_id) :=
  @C5_tie_break_by_key [⟨5, 1, 10⟩, ⟨5, 0, 20⟩] ⟨5, 0, 20⟩ [⟨5, 1, 10⟩] (by decide)

/-! ### C9: re-queue on no active worker -/

/-- C9: when the cycle pops an item and no worker is active, the item is
pushed back unchanged (original priority intact), the queue is the same
multiset as before, and the ledger, pending list, workers and quotas are all
untouched — no entry is dropped, duplicated, or flipped. -/
theorem C9_requeue_preserves_item {s : LBState} {item : QItem} {rest : List QItem}
    (hq : extractMin s.queue = some (item, rest))
    (hw : available_server s.servers = none) :
    process_requests_cycle s = { s with queue := rest ++ [item] } ∧
    (process_requests_cycle s).queue.Perm s.queue ∧
    (process_requests_cycle s).allRequests = s.allRequests ∧
    (process_requests_cycle s).pending = s.pending ∧
    (process_requests_cycle s).servers = s.servers ∧
    (process_requests_cycle s).clients = s.clients := by
  have h1 : process_requests_cycle s = { s with queue := rest ++ [item] } := by
    rw [process_requests_cycle, hq, hw]
  refine ⟨h1, ?_, by rw [h1], by rw [h1], by rw [h1], by rw [h1]⟩
  rw [h1]
  exact (List.perm_append_singleton _ _).trans (extractMin_perm hq).symm

/-- Witness for C9: one queued item, the only worker inactive. -/
theorem C9_requeue_preserves_item_witness :
    process_requests_cycle
        (set_worker_active ((add_request (configure initState 1 1 1) 0 3 7).2) 0 false)
      = { (set_worker_active ((add_request (configure initState 1 1 1) 0 3 7).2) 0 false) with
            queue := [] ++ [⟨7, 0, 3⟩] } ∧
    (process_requests_cycle
        (set_worker_active ((add_request (configure initState 1 1 1) 0 3 7).2) 0 false)).allRequests
      = (set_worker_active ((add_request (configure initState 1 1 1) 0 3 7).2) 0 false).allRequests :=
  ⟨(@C9_requeue_preserves_item
      (set_worker_active ((add_request (configure initState 1 1 1) 0 3 7).2) 0 false)
      ⟨7, 0, 3⟩ [] (by decide) (by decide)).1,
   (@C9_requeue_preserves_item
      (set_worker_active ((add_request (configure initState 1 1 1) 0 3 7).2) 0 false)
      ⟨7, 0, 3⟩ [] (by decide) (by decide)).2.2.1⟩

/-! ### Pointwise behaviour of `setProcessedFirst` -/

lemma setProcessedFirst_length (l : List RequestEntry) (rid : Int) :
    (setProcessedFirst l rid).length = l.length := by
  induction l with
  | nil => rfl
  | cons e es ih =>
    rw [setProcessedFirst]
    split
    · simp
    · simp [ih]

/-- Every position is either untouched or flipped to Processed. -/
lemma setProcessedFirst_pointwise (l : List RequestEntry) (rid : Int) (i : Nat) :
    (setProcessedFirst l rid).getD i default = l.getD i default ∨
    (setProcessedFirst l rid).getD i default
      = { l.getD i default with status := true } := by
  induction l generalizing i with
  | nil => left; rfl
  | cons e es ih =>
    rw [setProcessedFirst]
    split
    · cases i with
      | zero => right; rfl
      | succ n => left; rfl
    · cases i with
      | zero => left; rfl
      | succ n => simpa using ih n

/-- The fields other than `status` are never modified. -/
lemma setProcessedFirst_fields (l : List RequestEntry) (rid : Int) (i : Nat) :
    ((setProcessedFirst l rid).getD i default).client_id
        = (l.getD i default).client_id ∧
    ((setProcessedFirst l rid).getD i default).request_id
        = (l.getD i default).request_id ∧
    ((setProcessedFirst l rid).getD i default).priority
        = (l.getD i default).priority := by
  rcases setProcessedFirst_pointwise l rid i with h | h <;> rw [h] <;> exact ⟨rfl, rfl, rfl⟩

/-- Status only ever moves Pending → Processed. -/
lemma setProcessedFirst_status_mono (l : List RequestEntry) (rid : Int) (i : Nat)
    (h : (l.getD i default).status = true) :
    ((setProcessedFirst l rid).getD i default).status = true := by
  rcases setProcessedFirst_pointwise l rid i with h' | h' <;> rw [h']
  · exact h

/-- The first matching index is flipped. -/
lemma setProcessedFirst_at :
    ∀ (l : List RequestEntry) (rid : Int) (i : Nat),
      (∀ j, j < i → (l.getD j default).request_id ≠ rid) →
      i < l.length →
      (l.getD i default).request_id = rid →
      (setProcessedFirst l rid).getD i default
        = { l.getD i default with status := true } := by
  intro l
  induction l with
  | nil => intro rid i _ hi _; simp at hi
  | cons e es ih =>
    intro rid i hfirst hi hmatch
    cases i with
    | zero =>
      rw [setProcessedFirst, if_pos (by simpa using hmatch)]
      rfl
    | succ n =>
      have h0 : e.request_id ≠ rid := by
        have := hfirst 0 (Nat.succ_pos n)
        simpa using this
      rw [setProcessedFirst, if_neg (by simpa using h0)]
      simp only [List.getD_cons_succ]
      exact ih rid n (fun j hj => by simpa using hfirst (j + 1) (Nat.succ_lt_succ hj))
        (by simpa using hi) (by simpa using hmatch)

/-- Every index other than the first matching one is untouched. -/
lemma setProcessedFirst_other :
    ∀ (l : List RequestEntry) (rid : Int) (i : Nat),
      (∀ j, j < i → (l.getD j default).request_id ≠ rid) →
      (l.getD i default).request_id = rid →
      ∀ k, k ≠ i →
        (setProcessedFirst l rid).getD k default = l.getD k default := by
  intro l
  induction l with
  | nil => intro rid i _ _ k _; simp [setProcessedFirst]
  | cons e es ih =>
    intro rid i hfirst hmatch k hk
    cases i with
    | zero =>
      rw [setProcessedFirst, if_pos (by simpa using hmatch)]
      cases k with
      | zero => exact absurd rfl hk
      | succ n => rfl
    | succ n =>
      have h0 : e.request_id ≠ rid := by
        have := hfirst 0 (Nat.succ_pos n)
        simpa using this
      rw [setProcessedFirst, if_neg (by simpa using h0)]
      cases k with
      | zero => rfl
      | succ m =>
        simp only [List.getD_cons_succ]
        exact ih rid n (fun j hj => by simpa using hfirst (j + 1) (Nat.succ_lt_succ hj))
          (by simpa using hmatch) m (fun he => hk (by rw [he]))

/-! ### C2: what an assignment cycle really does to ledger and pending list -/

/-- C2 (amended): when a dispatch cycle assigns a popped item, the FIRST
Ledger entry whose `requestId` matches the popped item — regardless of its
`clientId` — is flipped to Processed, every other ledger entry is left
unchanged, and ALL pending-tracking entries whose `requestId` matches (also
those of other clients) are removed.  Matching is by `requestId` alone, not by
the natural key `(clientId, requestId)`. -/
theorem C2_assignment_matches_by_request_id {s : LBState} {item : QItem}
    {rest : List QItem} {w : Nat} {i : Nat}
    (hq : extractMin s.queue = some (item, rest))
    (hw : available_server s.servers = some w)
    (hfirst : ∀ j, j < i → (s.allRequests.getD j default).request_id ≠ item.request_id)
    (hlen : i < s.allRequests.length)
    (hmatch : (s.allRequests.getD i default).request_id = item.request_id) :
    (process_requests_cycle s).allRequests.getD i default
      = { s.allRequests.getD i default with status := true } ∧
    (∀ k, k ≠ i →
      (process_requests_cycle s).allRequests.getD k default
        = s.allRequests.getD k default) ∧
    (process_requests_cycle s).pending
      = s.pending.filter
          (fun idx => !((s.allRequests.getD idx default).request_id == item.request_id)) := by
  have hcycle : process_requests_cycle s
      = { s with
            queue := rest,
            servers := s.servers.set w
              { s.servers.getD w default with
                  handled_requests := (s.servers.getD w default).handled_requests + 1 },
            allRequests := setProcessedFirst s.allRequests item.request_id,
            pending := s.pending.filter
              (fun idx => !(((setProcessedFirst s.allRequests item.request_id).getD idx default).request_id
                  == item.request_id)) } := by
    rw [process_requests_cycle, hq, hw]
  refine ⟨?_, ?_, ?_⟩
  · rw [hcycle]
    exact setProcessedFirst_at s.allRequests item.request_id i hfirst hlen hmatch
  · intro k hk
    rw [hcycle]
    exact setProcessedFirst_other s.allRequests item.request_id i hfirst hmatch k hk
  · rw [hcycle]
    have hfun : (fun idx => !(((setProcessedFirst s.allRequests item.request_id).getD idx default).request_id
          == item.request_id))
        = (fun idx => !((s.allRequests.getD idx default).request_id == item.request_id)) := by
      funext idx
      rw [(setProcessedFirst_fields s.allRequests item.request_id idx).2.1]
    rw [hfun]

/-- Witness for C2 (amended): single client, single entry, first match at 0. -/
theorem C2_assignment_matches_by_request_id_witness :
    (process_requests_cycle ((add_request (configure initState 1 1 1) 0 3 7).2)).allRequests.getD 0 default
      = { ((add_request (configure initState 1 1 1) 0 3 7).2).allRequests.getD 0 default with
            status := true } ∧
    (process_requests_cycle ((add_request (configure initState 1 1 1) 0 3 7).2)).pending
      = ((add_request (configure initState 1 1 1) 0 3 7).2).pending.filter
          (fun idx => !((((add_request (configure initState 1 1 1) 0 3 7).2).allRequests.getD idx default).request_id
              == (⟨7, 0, 3⟩ : QItem).request_id)) :=
  ⟨(@C2_assignment_matches_by_request_id
      ((add_request (configure initState 1 1 1) 0 3 7).2) ⟨7, 0, 3⟩ [] 0 0
      (by decide) (by decide) (fun j hj => by omega) (by decide) (by decide)).1,
   (@C2_assignment_matches_by_request_id
      ((add_request (configure initState 1 1 1) 0 3 7).2) ⟨7, 0, 3⟩ [] 0 0
      (by decide) (by decide) (fun j hj => by omega) (by decide) (by decide)).2.2⟩

/-! ### Case analyses of the two mutating operations -/

/-- A Submit call either is accepted and performs exactly the four mutations,
or is rejected and returns the state unchanged. -/
lemma add_request_cases (s : LBState) (cid rid p : Int) :
    ((add_request s cid rid p).1 = SubmitResult.accepted ∧
      clientExists s.clients cid = true ∧ 0 < getQuota s.clients cid ∧ 0 < p ∧
      hasKey s.queue cid rid = false ∧
      (add_request s cid rid p).2 = { s with
          queue := s.queue ++ [⟨p, cid, rid⟩],
          clients := decQuota s.clients cid,
          pending := s.pending ++ [s.allRequests.length],
          allRequests := s.allRequests ++ [⟨cid, rid, p, false⟩] }) ∨
    ((add_request s cid rid p).1 ≠ SubmitResult.accepted ∧
      (add_request s cid rid p).2 = s) := by
  by_cases h1 : clientExists s.clients cid = true
  · by_cases h2 : getQuota s.clients cid ≤ 0
    · right; rw [add_request_quotaExceeded h1 h2]; exact ⟨by simp, rfl⟩
    · by_cases h3 : p ≤ 0
      · right; rw [add_request_invalidPriority h1 (not_le.mp h2) h3]
        exact ⟨by simp, rfl⟩
      · by_cases h4 : hasKey s.queue cid rid = true
        · right; rw [add_request_duplicate h1 (not_le.mp h2) (not_le.mp h3) h4]
          exact ⟨by simp, rfl⟩
        · left
          have h4' : hasKey s.queue cid rid = false := by simpa using h4
          rw [add_request_accept h1 (not_le.mp h2) (not_le.mp h3) h4']
          exact ⟨rfl, h1, not_le.mp h2, not_le.mp h3, h4', rfl⟩
  · right
    rw [add_request_invalidClient (by simpa using h1)]
    exact ⟨by simp, rfl⟩

/-- A dispatch cycle either idles, re-queues, or assigns. -/
lemma process_requests_cycle_cases (s : LBState) :
    (extractMin s.queue = none ∧ process_requests_cycle s = s) ∨
    (∃ item rest, extractMin s.queue = some (item, rest) ∧
      available_server s.servers = none ∧
      process_requests_cycle s = { s with queue := rest ++ [item] }) ∨
    (∃ item rest w, extractMin s.queue = some (item, rest) ∧
      available_server s.servers = some w ∧
      process_requests_cycle s = { s with
        queue := rest,
        servers := s.servers.set w
          { s.servers.getD w default with
              handled_requests := (s.servers.getD w default).handled_requests + 1 },
        allRequests := setProcessedFirst s.allRequests item.request_id,
        pending := s.pending.filter
          (fun idx => !(((setProcessedFirst s.allRequests item.request_id).getD idx default).request_id
              == item.request_id)) }) := by
  cases hq : extractMin s.queue with
  | none => left; exact ⟨rfl, by rw [process_requests_cycle, hq]⟩
  | some pr =>
    cases pr with
    | mk item rest =>
      cases hw : available_server s.servers with
      | none =>
        right; left
        exact ⟨item, rest, rfl, rfl, by rw [process_requests_cycle, hq, hw]⟩
      | some w =>
        right; right
        exact ⟨item, rest, w, rfl, rfl, by rw [process_requests_cycle, hq, hw]⟩

lemma set_worker_active_queue (s : LBState) (wid : Nat) (b : Bool) :
    (set_worker_active s wid b).queue = s.queue := by
  rw [set_worker_active]; split <;> rfl

lemma set_worker_active_allRequests (s : LBState) (wid : Nat) (b : Bool) :
    (set_worker_active s wid b).allRequests = s.allRequests := by
  rw [set_worker_active]; split <;> rfl

/-! ### C4: ledger monotonicity -/

/-- `new` extends `old`: no entry is removed, identifying fields are stable,
and a Processed status never reverts. -/
def LedgerExtends (old new : List RequestEntry) : Prop :=
  old.length ≤ new.length ∧
  ∀ i, i < old.length →
    (new.getD i default).client_id = (old.getD i default).client_id ∧
    (new.getD i default).request_id = (old.getD i default).request_id ∧
    (new.getD i default).priority = (old.getD i default).priority ∧
    ((old.getD i default).status = true → (new.getD i default).status = true)

lemma ledgerExtends_refl (l : List RequestEntry) : LedgerExtends l l :=
  ⟨le_refl _, fun _ _ => ⟨rfl, rfl, rfl, fun h => h⟩⟩

lemma ledgerExtends_trans {a b c : List RequestEntry}
    (h1 : LedgerExtends a b) (h2 : LedgerExtends b c) : LedgerExtends a c := by
  refine ⟨h1.1.trans h2.1, fun i hi => ?_⟩
  obtain ⟨e1, e2, e3, e4⟩ := h1.2 i hi
  obtain ⟨f1, f2, f3, f4⟩ := h2.2 i (lt_of_lt_of_le hi h1.1)
  exact ⟨f1.trans e1, f2.trans e2, f3.trans e3, fun h => f4 (e4 h)⟩

lemma ledgerExtends_append (l l2 : List RequestEntry) : LedgerExtends l (l ++ l2) := by
  refine ⟨by simp, fun i hi => ?_⟩
  rw [List.getD_append _ _ _ _ hi]
  exact ⟨rfl, rfl, rfl, fun h => h⟩

lemma ledgerExtends_setProcessedFirst (l : List RequestEntry) (rid : Int) :
    LedgerExtends l (setProcessedFirst l rid) := by
  refine ⟨by rw [setProcessedFirst_length], fun i _ => ?_⟩
  obtain ⟨f1, f2, f3⟩ := setProcessedFirst_fields l rid i
  exact ⟨f1, f2, f3, setProcessedFirst_status_mono l rid i⟩

/-- Each single operation only extends the ledger. -/
lemma step_ledgerExtends {s t : LBState} (h : Step s t) :
    LedgerExtends s.allRequests t.allRequests := by
  cases h with
  | submit cid rid p =>
    rcases add_request_cases s cid rid p with ⟨_, _, _, _, _, heq⟩ | ⟨_, heq⟩
    · rw [heq]; exact ledgerExtends_append _ _
    · rw [heq]; exact ledgerExtends_refl _
  | dispatch =>
    rcases process_requests_cycle_cases s with ⟨_, heq⟩ |
      ⟨item, rest, _, _, heq⟩ | ⟨item, rest, w, _, _, heq⟩
    · rw [heq]; exact ledgerExtends_refl _
    · rw [heq]; exact ledgerExtends_refl _
    · rw [heq]; exact ledgerExtends_setProcessedFirst _ _
  | config nw nc q => exact ledgerExtends_refl _
  | setActive wid b =>
    rw [set_worker_active_allRequests]
    exact ledgerExtends_refl _

/-- C4: across any sequence of operations the Ledger only grows, the
identifying fields of every entry are stable, a status moves only
Pending → Processed and never reverses; and every accepted Submit appends
exactly one Pending entry for the submitted request. -/
theorem C4_ledger_monotone {s t : LBState}
    (h : Relation.ReflTransGen Step s t) :
    LedgerExtends s.allRequests t.allRequests ∧
    ∀ (u : LBState) (cid rid p : Int),
      (add_request u cid rid p).1 = SubmitResult.accepted →
      (add_request u cid rid p).2.allRequests
        = u.allRequests ++ [⟨cid, rid, p, false⟩] := by
  constructor
  · induction h with
    | refl => exact ledgerExtends_refl _
    | tail _ hstep ih => exact ledgerExtends_trans ih (step_ledgerExtends hstep)
  · intro u cid rid p hacc
    rcases add_request_cases u cid rid p with ⟨_, _, _, _, _, heq⟩ | ⟨hne, _⟩
    · rw [heq]
    · exact absurd hacc hne

/-- Witness for C4: the empty trace, and one concrete accepted Submit
appending exactly its entry. -/
theorem C4_ledger_monotone_witness :
    (add_request (configure initState 1 1 1) 0 3 7).2.allRequests
      = (configure initState 1 1 1).allRequests ++ [⟨0, 3, 7, false⟩] :=
  (@C4_ledger_monotone initState initState (Relation.ReflTransGen.refl)).2
    (configure initState 1 1 1) 0 3 7 (by decide)

/-! ### C3: duplicate keys -/

lemma hasKey_iff (q : List QItem) (cid rid : Int) :
    hasKey q cid rid = true ↔ (cid, rid) ∈ queueKeys q := by
  simp only [hasKey, queueKeys, List.any_eq_true, Bool.and_eq_true, beq_iff_eq,
    List.mem_map]
  constructor
  · rintro ⟨it, hmem, h1, h2⟩
    exact ⟨it, hmem, by rw [h1, h2]⟩
  · rintro ⟨it, hmem, heq⟩
    exact ⟨it, hmem, congrArg Prod.fst heq, congrArg Prod.snd heq⟩

/-- C3 (amended): in every reachable state the Pending Queue never holds two
items with the same `(clientId, requestId)` — the duplicate guard scans
exactly the current queue contents.  (The Ledger-level statement fails, see
the counterexample: two Ledger entries with status Pending CAN share a key.) -/
theorem C3_queue_keys_nodup {s : LBState} (h : Reachable s) :
    (queueKeys s.queue).Nodup := by
  induction h with
  | init => simp [initState, queueKeys]
  | step hr hstep ih =>
    rename_i s' t'
    cases hstep with
    | submit cid rid p =>
      rcases add_request_cases s' cid rid p with ⟨_, _, _, _, h4, heq⟩ | ⟨_, heq⟩
      · rw [heq]
        have hperm : (queueKeys (s'.queue ++ [⟨p, cid, rid⟩])).Perm
            ((cid, rid) :: queueKeys s'.queue) := by
          exact (List.perm_append_singleton (⟨p, cid, rid⟩ : QItem) s'.queue).map
            (fun it : QItem => (it.client_id, it.request_id))
        rw [hperm.nodup_iff]
        refine List.nodup_cons.mpr ⟨?_, ih⟩
        intro hmem
        rw [← hasKey_iff] at hmem
        rw [h4] at hmem
        exact Bool.false_ne_true hmem
      · rw [heq]; exact ih
    | dispatch =>
      rcases process_requests_cycle_cases s' with ⟨_, heq⟩ |
        ⟨item, rest, hq, _, heq⟩ | ⟨item, rest, w, hq, _, heq⟩
      · rw [heq]; exact ih
      · rw [heq]
        have hperm : (queueKeys (rest ++ [item])).Perm (queueKeys s'.queue) :=
          ((List.perm_append_singleton item rest).trans
            (extractMin_perm hq).symm).map _
        exact hperm.nodup_iff.mpr ih
      · rw [heq]
        have hperm : (queueKeys s'.queue).Perm
            ((item.client_id, item.request_id) :: queueKeys rest) :=
          (extractMin_perm hq).map _
        exact (List.nodup_cons.mp (hperm.nodup_iff.mp ih)).2
    | config nw nc q => exact ih
    | setActive wid b => rw [set_worker_active_queue]; exact ih

/-- Witness for C3 (amended): the initial state is reachable. -/
theorem C3_queue_keys_nodup_witness : (queueKeys initState.queue).Nodup :=
  C3_queue_keys_nodup Reachable.init

/-- Counterexample to C3 as stated.  Trace (all Submit/dispatch steps after
one Configure): clients 0 and 1 both submit requestId 7; the first dispatch
flips the entry of client 0, the second dispatch re-flips that same entry (it
matches requestId 7 first) and leaves the entry of client 1 Pending though its
item left the queue; client 1 then resubmits key (1,7), which the queue-only
duplicate guard accepts — giving two Pending ledger entries with key (1,7). -/
theorem C3_counterexample :
    Reachable ((add_request
      (process_requests_cycle (process_requests_cycle
        (add_request (add_request (configure initState 1 2 2) 0 7 1).2 1 7 2).2))
      1 7 3).2) ∧
    ¬ (pendingLedgerKeys ((add_request
      (process_requests_cycle (process_requests_cycle
        (add_request (add_request (configure initState 1 2 2) 0 7 1).2 1 7 2).2))
      1 7 3).2).allRequests).Nodup := by
  constructor
  · exact Reachable.step
      (Reachable.step
        (Reachable.step
          (Reachable.step
            (Reachable.step
              (Reachable.step Reachable.init (Step.config initState 1 2 2))
              (Step.submit _ 0 7 1))
            (Step.submit _ 1 7 2))
          (Step.dispatch _))
        (Step.dispatch _))
      (Step.submit _ 1 7 3)
  · decide

/-! ### C7: least-loaded selection -/

lemma getD_set_self {l : List Server} {w : Nat} {v : Server} (h : w < l.length) :
    (l.set w v).getD w default = v := by
  rw [List.getD_eq_getElem?_getD, List.getElem?_set_eq_of_lt v h]
  rfl

lemma getD_set_ne {l : List Server} {w j : Nat} {v : Server} (h : w ≠ j) :
    (l.set w v).getD j default = l.getD j default := by
  rw [List.getD_eq_getElem?_getD, List.getElem?_set_ne h, ← List.getD_eq_getElem?_getD]

lemma pickMin_cons_ne_none (ss : List Server) (i : Nat) (is : List Nat) :
    pickMin ss (i :: is) ≠ none := by
  rw [pickMin]
  cases pickMin ss is with
  | none => simp
  | some j => dsimp only; split <;> simp

lemma pickMin_eq_none {ss : List Server} {l : List Nat}
    (h : pickMin ss l = none) : l = [] := by
  cases l with
  | nil => rfl
  | cons i is => exact absurd h (pickMin_cons_ne_none ss i is)

lemma pickMin_mem {ss : List Server} :
    ∀ {l : List Nat} {j : Nat}, pickMin ss l = some j → j ∈ l := by
  intro l
  induction l with
  | nil => intro j h; simp [pickMin] at h
  | cons i is ih =>
    intro j h
    rw [pickMin] at h
    split at h
    · obtain rfl : i = j := by simpa using h
      exact List.mem_cons_self _ _
    · rename_i j' hp
      split at h
      · obtain rfl : j' = j := by simpa using h
        exact List.mem_cons_of_mem _ (ih hp)
      · obtain rfl : i = j := by simpa using h
        exact List.mem_cons_self _ _

lemma pickMin_min {ss : List Server} :
    ∀ {l : List Nat} {j : Nat}, pickMin ss l = some j →
      ∀ k ∈ l, (ss.getD j default).handled_requests
        ≤ (ss.getD k default).handled_requests := by
  intro l
  induction l with
  | nil => intro j h; simp [pickMin] at h
  | cons i is ih =>
    intro j h k hk
    rw [pickMin] at h
    split at h
    · rename_i hp
      obtain rfl : i = j := by simpa using h
      rw [pickMin_eq_none hp] at hk
      rcases List.mem_singleton.mp hk with rfl
      exact le_refl _
    · rename_i j' hp
      split at h
      · rename_i hlt
        obtain rfl : j' = j := by simpa using h
        rcases List.mem_cons.mp hk with rfl | hk'
        · exact le_of_lt hlt
        · exact ih hp k hk'
      · rename_i hlt
        obtain rfl : i = j := by simpa using h
        rcases List.mem_cons.mp hk with rfl | hk'
        · exact le_refl _
        · exact le_trans (not_lt.mp hlt) (ih hp k hk')

lemma pickMin_first {ss : List Server} :
    ∀ {l : List Nat} {j : Nat}, l.Pairwise (· < ·) → pickMin ss l = some j →
      ∀ k ∈ l, (ss.getD k default).handled_requests
          = (ss.getD j default).handled_requests → j ≤ k := by
  intro l
  induction l with
  | nil => intro j _ h; simp [pickMin] at h
  | cons i is ih =>
    intro j hpw h k hk heq
    have hpw' := List.pairwise_cons.mp hpw
    rw [pickMin] at h
    split at h
    · rename_i hp
      obtain rfl : i = j := by simpa using h
      rw [pickMin_eq_none hp] at hk
      rcases List.mem_singleton.mp hk with rfl
      exact le_refl _
    · rename_i j' hp
      split at h
      · rename_i hlt
        obtain rfl : j' = j := by simpa using h
        rcases List.mem_cons.mp hk with rfl | hk'
        · exact absurd heq (by omega)
        · exact ih hpw'.2 hp k hk' heq
      · rename_i hlt
        obtain rfl : i = j := by simpa using h
        rcases List.mem_cons.mp hk with rfl | hk'
        · exact le_refl _
        · exact le_of_lt (hpw'.1 k hk')

lemma mem_activeIdxs {ss : List Server} {i : Nat} :
    i ∈ activeIdxs ss ↔ i < ss.length ∧ (ss.getD i default).active = true := by
  simp [activeIdxs, List.mem_filter, List.mem_range]

lemma activeIdxs_pairwise (ss : List Server) :
    (activeIdxs ss).Pairwise (· < ·) :=
  List.Pairwise.sublist (List.filter_sublist _) (List.pairwise_lt_range _)

lemma activeIdxs_ne_nil {ss : List Server}
    (h : ss.any (fun x => x.active) = true) : activeIdxs ss ≠ [] := by
  rw [List.any_eq_true] at h
  obtain ⟨x, hmem, hx⟩ := h
  obtain ⟨i, hi, rfl⟩ := List.mem_iff_getElem.mp hmem
  intro hnil
  have hin : i ∈ activeIdxs ss := mem_activeIdxs.mpr
    ⟨hi, by rw [List.getD_eq_getElem _ _ hi]; exact hx⟩
  rw [hnil] at hin
  exact List.not_mem_nil _ hin

/-- C7: whenever the dispatch loop assigns and some worker is active, the
chosen worker is active with the minimum `handledCount` among active workers,
ties go to the smallest id, exactly its count is incremented by 1, and every
other worker is untouched. -/
theorem C7_least_loaded_assignment {s : LBState} {item : QItem} {rest : List QItem}
    (hq : extractMin s.queue = some (item, rest))
    (hact : s.servers.any (fun x => x.active) = true) :
    ∃ w, available_server s.servers = some w ∧
      w < s.servers.length ∧
      (s.servers.getD w default).active = true ∧
      (∀ j, j < s.servers.length → (s.servers.getD j default).active = true →
        (s.servers.getD w default).handled_requests
            ≤ (s.servers.getD j default).handled_requests ∧
        ((s.servers.getD j default).handled_requests
            = (s.servers.getD w default).handled_requests → w ≤ j)) ∧
      ((process_requests_cycle s).servers.getD w default).handled_requests
        = (s.servers.getD w default).handled_requests + 1 ∧
      (∀ j, j ≠ w →
        (process_requests_cycle s).servers.getD j default
          = s.servers.getD j default) := by
  obtain ⟨w, hw⟩ : ∃ w, pickMin s.servers (activeIdxs s.servers) = some w := by
    cases hp : pickMin s.servers (activeIdxs s.servers) with
    | none => exact absurd (pickMin_eq_none hp) (activeIdxs_ne_nil hact)
    | some w => exact ⟨w, rfl⟩
  have hava : available_server s.servers = some w := hw
  have hmem := mem_activeIdxs.mp (pickMin_mem hw)
  have hcycle : (process_requests_cycle s).servers
      = s.servers.set w { s.servers.getD w default with
          handled_requests := (s.servers.getD w default).handled_requests + 1 } := by
    rw [process_requests_cycle, hq, hava]
  refine ⟨w, hava, hmem.1, hmem.2, fun j hj hja => ⟨?_, ?_⟩, ?_, fun j hj => ?_⟩
  · exact pickMin_min hw j (mem_activeIdxs.mpr ⟨hj, hja⟩)
  · exact fun he =>
      pickMin_first (activeIdxs_pairwise _) hw j (mem_activeIdxs.mpr ⟨hj, hja⟩) he
  · rw [hcycle, getD_set_self hmem.1]
  · rw [hcycle, getD_set_ne (fun he => hj he.symm)]

/-- Workers with handled counts {3,1,1}, all active, one queued item. -/
def c7State : LBState :=
  ⟨[⟨3, true⟩, ⟨1, true⟩, ⟨1, true⟩], [1], [⟨5, 0, 9⟩], [], []⟩

/-- Witness for C7: among handled counts {3,1,1} worker 1 (count 1, lower id
than worker 2) is chosen and bumped to 2. -/
theorem C7_least_loaded_assignment_witness :
    ∃ w, available_server c7State.servers = some w ∧
      w < c7State.servers.length ∧
      (c7State.servers.getD w default).active = true ∧
      (∀ j, j < c7State.servers.length →
        (c7State.servers.getD j default).active = true →
        (c7State.servers.getD w default).handled_requests
            ≤ (c7State.servers.getD j default).handled_requests ∧
        ((c7State.servers.getD j default).handled_requests
            = (c7State.servers.getD w default).handled_requests → w ≤ j)) ∧
      ((process_requests_cycle c7State).servers.getD w default).handled_requests
        = (c7State.servers.getD w default).handled_requests + 1 ∧
      (∀ j, j ≠ w →
        (process_requests_cycle c7State).servers.getD j default
          = c7State.servers.getD j default) :=
  @C7_least_loaded_assignment c7State ⟨5, 0, 9⟩ [] (by decide) (by decide)

/-! ### C6: quota accounting -/

lemma clientExists_toNat_lt {cs : List Int} {cid : Int}
    (h : clientExists cs cid = true) : cid.toNat < cs.length := by
  simp only [clientExists, Bool.and_eq_true, decide_eq_true_eq] at h
  omega

lemma getQuota_decQuota_self {cs : List Int} {cid : Int}
    (h : clientExists cs cid = true) :
    getQuota (decQuota cs cid) cid = getQuota cs cid - 1 := by
  have hlt := clientExists_toNat_lt h
  rw [getQuota, decQuota, List.getD_eq_getElem?_getD,
    List.getElem?_set_eq_of_lt _ hlt]
  simp [getQuota]

lemma clientExists_decQuota (cs : List Int) (cid cid2 : Int) :
    clientExists (decQuota cs cid) cid2 = clientExists cs cid2 := by
  simp [clientExists, decQuota, List.length_set]

lemma hasKey_append (q q' : List QItem) (cid rid : Int) :
    hasKey (q ++ q') cid rid = (hasKey q cid rid || hasKey q' cid rid) := by
  simp [hasKey, List.any_append]

/-- The accepted batch: every call goes through, the quota tracker keeps its
shape, and the remaining quota of the client drops by exactly the batch
length. -/
lemma runSubmits_all_accepted :
    ∀ (L : List (Int × Int)) (s : LBState) (cid : Int),
      clientExists s.clients cid = true →
      (L.map Prod.fst).Nodup →
      (∀ rp ∈ L, 0 < rp.2) →
      (∀ rp ∈ L, hasKey s.queue cid rp.1 = false) →
      (L.length : Int) ≤ getQuota s.clients cid →
      allAccepted s cid L = true ∧
      (runSubmits s cid L).clients.length = s.clients.length ∧
      getQuota (runSubmits s cid L).clients cid
        = getQuota s.clients cid - L.length := by
  intro L
  induction L with
  | nil =>
    intro s cid _ _ _ _ _
    exact ⟨rfl, rfl, by simp [runSubmits]⟩
  | cons hd tl ih =>
    intro s cid h1 hnd hp hk hlen
    obtain ⟨rid, p⟩ := hd
    have hq0 : 0 < getQuota s.clients cid := by
      simp only [List.length_cons] at hlen
      omega
    have hpp : 0 < p := hp (rid, p) (List.mem_cons_self _ _)
    have hkk : hasKey s.queue cid rid = false := hk (rid, p) (List.mem_cons_self _ _)
    have hacc := add_request_accept h1 hq0 hpp hkk
    have h2eq : (add_request s cid rid p).2 = { s with
        queue := s.queue ++ [⟨p, cid, rid⟩],
        clients := decQuota s.clients cid,
        pending := s.pending ++ [s.allRequests.length],
        allRequests := s.allRequests ++ [⟨cid, rid, p, false⟩] } := by rw [hacc]
    have h1' : clientExists (add_request s cid rid p).2.clients cid = true := by
      rw [h2eq]
      show clientExists (decQuota s.clients cid) cid = true
      rw [clientExists_decQuota]
      exact h1
    have hquota' : getQuota (add_request s cid rid p).2.clients cid
        = getQuota s.clients cid - 1 := by
      rw [h2eq]
      exact getQuota_decQuota_self h1
    rw [List.map_cons] at hnd
    have hnd0 := List.nodup_cons.mp hnd
    have hk' : ∀ rp ∈ tl, hasKey (add_request s cid rid p).2.queue cid rp.1 = false := by
      intro rp hrp
      rw [h2eq]
      show hasKey (s.queue ++ [⟨p, cid, rid⟩]) cid rp.1 = false
      rw [hasKey_append]
      have hne : rid ≠ rp.1 := by
        intro he
        have hmm := List.mem_map_of_mem Prod.fst hrp
        rw [← he] at hmm
        exact hnd0.1 hmm
      rw [hk rp (List.mem_cons_of_mem _ hrp)]
      simp [hasKey, hne]
    have hlen' : (tl.length : Int) ≤ getQuota (add_request s cid rid p).2.clients cid := by
      rw [hquota']
      simp only [List.length_cons] at hlen
      omega
    obtain ⟨ha, hl, hg⟩ := ih (add_request s cid rid p).2 cid h1' hnd0.2
      (fun rp h => hp rp (List.mem_cons_of_mem _ h)) hk' hlen'
    refine ⟨?_, ?_, ?_⟩
    · rw [allAccepted, Bool.and_eq_true]
      exact ⟨by rw [hacc]; simp, ha⟩
    · rw [runSubmits, hl, h2eq]
      show (decQuota s.clients cid).length = s.clients.length
      rw [decQuota, List.length_set]
    · rw [runSubmits, hg, hquota']
      simp only [List.length_cons]
      omega

/-- C6: a client with remaining quota Q accepts any batch of Q submissions
with distinct fresh requestIds and positive priorities, the quota drops by
exactly 1 per acceptance and never goes negative, and the (Q+1)-th submission
is rejected with QuotaExceeded. -/
theorem C6_quota_bound {s : LBState} {cid : Int} (L : List (Int × Int)) (rid2 p2 : Int)
    (h1 : clientExists s.clients cid = true)
    (hnd : (L.map Prod.fst).Nodup)
    (hp : ∀ rp ∈ L, 0 < rp.2)
    (hk : ∀ rp ∈ L, hasKey s.queue cid rp.1 = false)
    (hlen : (L.length : Int) = getQuota s.clients cid) :
    allAccepted s cid L = true ∧
    (∀ pre post, L = pre ++ post →
      getQuota (runSubmits s cid pre).clients cid
          = getQuota s.clients cid - pre.length ∧
      0 ≤ getQuota (runSubmits s cid pre).clients cid) ∧
    (add_request (runSubmits s cid L) cid rid2 p2).1
      = SubmitResult.quotaExceeded := by
  obtain ⟨ha, hl, hg⟩ := runSubmits_all_accepted L s cid h1 hnd hp hk (le_of_eq hlen)
  refine ⟨ha, ?_, ?_⟩
  · intro pre post hsplit
    subst hsplit
    have hnd_pre : (pre.map Prod.fst).Nodup := by
      rw [List.map_append] at hnd
      exact hnd.of_append_left
    obtain ⟨_, _, hgpre⟩ := runSubmits_all_accepted pre s cid h1 hnd_pre
      (fun rp h => hp rp (List.mem_append_left _ h))
      (fun rp h => hk rp (List.mem_append_left _ h))
      (by rw [← hlen]; simp only [List.length_append]; omega)
    refine ⟨hgpre, ?_⟩
    rw [hgpre, ← hlen]
    simp only [List.length_append]
    omega
  · have hex : clientExists (runSubmits s cid L).clients cid = true := by
      simp only [clientExists, hl] at h1 ⊢
      exact h1
    have hq0 : getQuota (runSubmits s cid L).clients cid ≤ 0 := by
      rw [hg, ← hlen]
      simp
    rw [add_request_quotaExceeded hex hq0]

/-- Witness for C6: one client configured with quota 2 accepts requestIds
10 and 11 and rejects a third submission with QuotaExceeded. -/
theorem C6_quota_bound_witness :
    allAccepted (configure initState 1 1 2) 0 [(10, 1), (11, 1)] = true ∧
    (add_request (runSubmits (configure initState 1 1 2) 0 [(10, 1), (11, 1)]) 0 12 1).1
      = SubmitResult.quotaExceeded :=
  ⟨(@C6_quota_bound (configure initState 1 1 2) 0 [(10, 1), (11, 1)] 12 1
      (by decide) (by decide) (by decide) (by decide) (by decide)).1,
   (@C6_quota_bound (configure initState 1 1 2) 0 [(10, 1), (11, 1)] 12 1
      (by decide) (by decide) (by decide) (by decide) (by decide)).2.2⟩

end LoadBalancer
